import Mathlib

/-!
Verification development for a mean-reversion trading bot (TypeScript).
The embedding translates the decision core — `RiskManager` (riskManager.ts),
`MeanReversionStrategy` (meanReversion.ts) and `Backtester` (backtest.ts) —
into Lean over exact rationals `ℚ` (the source uses decimal.js exact decimal
arithmetic throughout).  Floating-point library calls (`Math.sqrt`, the npm
`technicalindicators` RSI/EMA) are modelled as oracle function parameters,
so every theorem quantifying over them covers the library behaviour.
Observability-only fields of the source records (string `id`s, `reason`
strings, log calls) are omitted: no control flow reads them.
-/

set_option maxHeartbeats 1000000

set_option linter.unusedVariables false

set_option linter.unnecessarySeqFocus false
set_option linter.unnecessarySimpa false
set_option linter.unreachableTactic false
set_option linter.unusedTactic false

/-! ## Data model and embedded operations (definitions) -/

inductive SignalType
  | BUY
  | SELL
  | HOLD
deriving DecidableEq, Repr

inductive PositionSide
  | LONG
  | SHORT
deriving DecidableEq, Repr

inductive PositionStatus
  | PENDING
  | OPEN
  | CLOSED
deriving DecidableEq, Repr

inductive TradeSide
  | BUY
  | SELL
deriving DecidableEq, Repr

/-- TradingSignal from types/index.ts; the `indicators` snapshot and `reason`
string are observability-only and omitted. -/
structure TradingSignal where
  type : SignalType
  strength : ℚ
  price : ℚ
  timestamp : ℤ
deriving DecidableEq, Repr

structure Position where
  entryPrice : ℚ
  entryTime : ℤ
  size : ℚ
  side : PositionSide
  stopLoss : Option ℚ
  takeProfit : Option ℚ
  currentPrice : Option ℚ
  pnl : Option ℚ
  pnlPercent : Option ℚ
  status : PositionStatus
deriving DecidableEq, Repr

/-- Trade log entry; `id` (random string) and `status` (always SUCCESS in the
backtester) are omitted. -/
structure Trade where
  timestamp : ℤ
  side : TradeSide
  price : ℚ
  size : ℚ
  fee : ℚ
deriving DecidableEq, Repr

structure RiskParams where
  maxPositionSize : ℚ
  maxOpenPositions : ℕ
  riskPerTrade : ℚ
  maxDailyLoss : ℚ
  maxDrawdown : ℚ
deriving DecidableEq, Repr

/-- Mutable fields of `RiskManager` read by `validateTrade`. -/
structure RiskState where
  dailyLoss : ℚ
  peakBalance : ℚ
deriving DecidableEq, Repr

/-- Result record of `validateTrade` (the `reason` string is omitted). -/
structure ValidationResult where
  allowed : Bool
  adjustedSize : Option ℚ
deriving DecidableEq, Repr

/-- `calculateTotalExposure`: positions.reduce over OPEN positions of
size × (currentPrice if set, else entryPrice). -/
def calculateTotalExposure (positions : List Position) : ℚ :=
  positions.foldl
    (fun total pos =>
      if pos.status = PositionStatus.OPEN then
        total + pos.size * (pos.currentPrice.getD pos.entryPrice)
      else total)
    0

/-- `isDailyLossLimitExceeded`: dailyLoss.gt(maxDailyLoss). -/
def isDailyLossLimitExceeded (params : RiskParams) (st : RiskState) : Bool :=
  decide (st.dailyLoss > params.maxDailyLoss)

/-- `isDrawdownLimitExceeded`.  The source mutates `peakBalance` when it is
still 0 (sets it to the current balance); the model returns the updated
peak balance as the second component. -/
def isDrawdownLimitExceeded (params : RiskParams) (st : RiskState)
    (currentBalance : ℚ) : Bool × ℚ :=
  if st.peakBalance = 0 then (false, currentBalance)
  else
    (decide ((st.peakBalance - currentBalance) / st.peakBalance > params.maxDrawdown),
     st.peakBalance)

/-- `validateTrade` — faithful translation of the ordered checks, returning
the validation result together with the (possibly updated) peak balance. -/
def validateTrade (params : RiskParams) (st : RiskState) (signal : TradingSignal)
    (proposedSize currentBalance : ℚ) (openPositions : List Position) :
    ValidationResult × ℚ :=
  if openPositions.length ≥ params.maxOpenPositions then
    (⟨false, none⟩, st.peakBalance)
  else if isDailyLossLimitExceeded params st then
    (⟨false, none⟩, st.peakBalance)
  else
    let dd := isDrawdownLimitExceeded params st currentBalance
    if dd.1 then (⟨false, none⟩, dd.2)
    else
      let currentExposure := calculateTotalExposure openPositions
      let newExposure := currentExposure + proposedSize * signal.price
      let maxExposure := currentBalance * 0.5
      if newExposure > maxExposure then
        let availableExposure := maxExposure - currentExposure
        if availableExposure ≤ 0 then (⟨false, none⟩, dd.2)
        else (⟨true, some (availableExposure / signal.price)⟩, dd.2)
      else
        let riskAmount := currentBalance * params.riskPerTrade
        let stopLossDistance := signal.price * 0.05
        let riskBasedSize := riskAmount / stopLossDistance
        let finalSize := min (min proposedSize riskBasedSize) params.maxPositionSize
        let minPositionValue : ℚ := 10
        let positionValue := finalSize * signal.price
        if positionValue < minPositionValue then (⟨false, none⟩, dd.2)
        else if signal.strength < 0.4 then (⟨false, none⟩, dd.2)
        else if finalSize ≠ proposedSize then (⟨true, some finalSize⟩, dd.2)
        else (⟨true, none⟩, dd.2)

/-- `calculateStopLoss`: ATR-based (2×ATR) when available, else 5 percent. -/
def calculateStopLoss (entryPrice : ℚ) (side : PositionSide) (atr : Option ℚ) : ℚ :=
  let stopDistance := match atr with
    | some a => a * 2
    | none => entryPrice * 0.05
  if side = PositionSide.LONG then entryPrice - stopDistance
  else entryPrice + stopDistance

/-- `calculateTakeProfit` (`riskRewardRatio` defaults to 2 at the source call
sites; the model takes it explicitly). -/
def calculateTakeProfit (entryPrice : ℚ) (side : PositionSide)
    (riskRewardRatio : ℚ) : ℚ :=
  let profitTarget := entryPrice * (0.05 * riskRewardRatio)
  if side = PositionSide.LONG then entryPrice + profitTarget
  else entryPrice - profitTarget

/-- `shouldClosePosition`; `now` models `Date.now()`.  The JS truthiness
guards on `stopLoss`/`takeProfit`/`pnlPercent` test presence of the Decimal
object (always truthy when defined). -/
def shouldClosePosition (now : ℤ) (position : Position) : Bool :=
  match position.currentPrice with
  | none => false
  | some currentPrice =>
    let stopHit : Bool := match position.stopLoss with
      | some sl =>
          decide (position.side = PositionSide.LONG ∧ currentPrice ≤ sl) ||
          decide (position.side = PositionSide.SHORT ∧ currentPrice ≥ sl)
      | none => false
    let tpHit : Bool := match position.takeProfit with
      | some tp =>
          decide (position.side = PositionSide.LONG ∧ currentPrice ≥ tp) ||
          decide (position.side = PositionSide.SHORT ∧ currentPrice ≤ tp)
      | none => false
    if stopHit then true
    else if tpHit then true
    else if now - position.entryTime > 24 * 60 * 60 * 1000 then true
    else match position.pnlPercent with
      | some pp => decide (pp < -10)
      | none => false

def rpEx : RiskParams := ⟨1000, 3, 0.02, 100, 0.2⟩

def rsEx : RiskState := ⟨0, 0⟩

/-- A weak signal (strength 0.2 < 0.4) at price 1. -/
def sigWeak : TradingSignal := ⟨SignalType.BUY, 0.2, 1, 0⟩

def posEx : Position :=
  ⟨1, 0, 1, PositionSide.LONG, none, none, none, none, none, PositionStatus.OPEN⟩

structure StrategyParams where
  maPeriod : ℕ
  stdDevMultiplier : ℚ
  entryThreshold : ℚ
  exitThreshold : ℚ
  stopLossPercent : ℚ
  takeProfitPercent : ℚ
  minVolume : ℚ
deriving DecidableEq, Repr

/-- PriceData bar; the JS field `open` is a Lean keyword, renamed
`openPrice`; the `source` string is omitted. -/
structure PriceData where
  timestamp : ℤ
  openPrice : ℚ
  high : ℚ
  low : ℚ
  close : ℚ
  volume : ℚ
deriving DecidableEq, Repr, Inhabited

structure Indicators where
  sma : ℚ
  upperBand : ℚ
  lowerBand : ℚ
  stdDev : ℚ
  rsi : Option ℚ
  ema : Option ℚ
deriving DecidableEq, Repr

/-- Model of the JS `array.slice(-n)` for `n ≥ 0`: the last `n` elements
(the whole array when `n = 0`, matching `slice(-0) = slice(0)`). -/
def sliceLast {α : Type} (n : ℕ) (l : List α) : List α :=
  if n = 0 then l else l.drop (l.length - n)

/-- Modelled from the npm `technicalindicators` SMA: the last produced value
is the arithmetic mean of the trailing `period` closes; no value is produced
when fewer than `period` closes (or `period = 0`) are given — the source
then returns null via the `smaValues.length === 0` guard.  Idealization:
the library accumulates a binary-double running sum, so its mean can differ
from the exact mean in the last bits (ten closes of 0.1 give
0.09999999999999999); the model uses the exact rational mean, the decimal
semantics the specification prescribes for all price arithmetic. -/
def smaLast (period : ℕ) (closes : List ℚ) : Option ℚ :=
  if closes.length < period ∨ period = 0 then none
  else
    let window := sliceLast period closes
    some (window.sum / (window.length : ℚ))

/-- `calculateIndicators`: SMA, population standard deviation over the
trailing `maPeriod` closes (divide by N), Bollinger bands, optional RSI(14)
and EMA(20) (computed only when 14 resp. 20 closes are available).
Idealization: the source converts the Decimal closes to binary doubles
(`toNumber()`) and computes the mean and variance in floating point, so a
flat window whose close is not exactly representable (e.g. 0.1) gets a tiny
nonzero variance in the program; the model computes them exactly over ℚ —
the never-floating-point decimal semantics the specification prescribes.
The rounding gap is immaterial to the structural claims about strength
bounds and z-score classification, but it is the divergence recorded for
the flat-window/zero-trades claim below. -/
def calculateIndicators (sqrtQ : ℚ → ℚ) (rsiF emaF : List ℚ → Option ℚ)
    (params : StrategyParams) (closes : List ℚ) : Option Indicators :=
  match smaLast params.maPeriod closes with
  | none => none
  | some sma =>
    let recentCloses := sliceLast params.maPeriod closes
    let mean := recentCloses.sum / (recentCloses.length : ℚ)
    let variance :=
      (recentCloses.map (fun val => (val - mean) * (val - mean))).sum /
        (recentCloses.length : ℚ)
    let stdDev := sqrtQ variance
    let upperBand := sma + stdDev * params.stdDevMultiplier
    let lowerBand := sma - stdDev * params.stdDevMultiplier
    let rsi := if closes.length ≥ 14 then rsiF closes else none
    let ema := if closes.length ≥ 20 then emaF closes else none
    some ⟨sma, upperBand, lowerBand, stdDev, rsi, ema⟩

/-- Classification stage of `generateSignal`: the if/else chain mapping the
z-score to a signal type and base strength (including the RSI confirmation
boosts that live inside the two strong branches).  The JS guard
`indicators.rsi && ...` tests number truthiness, hence the `r ≠ 0`
conjuncts. -/
def signalBase (params : StrategyParams) (zScore : ℚ) (rsi : Option ℚ) :
    SignalType × ℚ :=
  let zScoreAbs := |zScore|
  if zScore < -params.stdDevMultiplier then
    let strength := min (zScoreAbs / 3) 1
    let strength := match rsi with
      | some r => if r ≠ 0 ∧ r < 30 then min (strength + 0.2) 1 else strength
      | none => strength
    (SignalType.BUY, strength)
  else if zScore > params.stdDevMultiplier then
    let strength := min (zScoreAbs / 3) 1
    let strength := match rsi with
      | some r => if r ≠ 0 ∧ r > 70 then min (strength + 0.2) 1 else strength
      | none => strength
    (SignalType.SELL, strength)
  else if zScore < -params.entryThreshold ∧ zScore > -params.stdDevMultiplier then
    (SignalType.BUY, min (zScoreAbs / 2) 0.7)
  else if zScore > params.entryThreshold ∧ zScore < params.stdDevMultiplier then
    (SignalType.SELL, min (zScoreAbs / 2) 0.7)
  else if zScoreAbs < params.exitThreshold then
    (SignalType.HOLD, 0.1)
  else
    (SignalType.HOLD, 0)

/-- Additional filters of `generateSignal` for non-HOLD signals: Bollinger
band extreme boost (+0.1) and the EMA counter-trend boost (+0.05), both
capped at 1.  `currentPrice ≤ ema` models the JS `bearish` trend bias
(the negation of `currentPrice.gt(ema)`). -/
def applyFilters (currentPrice : ℚ) (indicators : Indicators)
    (sigType : SignalType) (strength0 : ℚ) : ℚ :=
  if sigType ≠ SignalType.HOLD then
    let strength :=
      if sigType = SignalType.BUY ∧ currentPrice < indicators.lowerBand then
        min (strength0 + 0.1) 1
      else if sigType = SignalType.SELL ∧ currentPrice > indicators.upperBand then
        min (strength0 + 0.1) 1
      else strength0
    match indicators.ema with
    | some ema =>
        if (sigType = SignalType.BUY ∧ currentPrice ≤ ema) ∨
           (sigType = SignalType.SELL ∧ currentPrice > ema) then
          min (strength + 0.05) 1
        else strength
    | none => strength
  else strength0

/-- `generateSignal`: volume gate, classification, filters, and the final
strength-floor gate (< 0.3 → null). `now` models `Date.now()`. -/
def generateSignal (params : StrategyParams) (currentPrice zScore : ℚ)
    (indicators : Indicators) (volume : ℚ) (now : ℤ) : Option TradingSignal :=
  if volume < params.minVolume then none
  else
    let base := signalBase params zScore indicators.rsi
    let strength := applyFilters currentPrice indicators base.1 base.2
    if strength < 0.3 then none
    else some ⟨base.1, strength, currentPrice, now⟩

/-- `analyze`: insufficient-data guard, indicator computation, z-score and
signal generation on the last bar's close and volume. -/
def analyze (sqrtQ : ℚ → ℚ) (rsiF emaF : List ℚ → Option ℚ)
    (params : StrategyParams) (now : ℤ) (priceHistory : List PriceData) :
    Option TradingSignal :=
  if priceHistory.length < params.maPeriod then none
  else
    let closes := priceHistory.map (fun p => p.close)
    let currentPrice := closes.getLastD 0
    match calculateIndicators sqrtQ rsiF emaF params closes with
    | none => none
    | some indicators =>
      let zScore := (currentPrice - indicators.sma) / indicators.stdDev
      generateSignal params currentPrice zScore indicators
        ((priceHistory.getLastD default).volume) now

/-- `calculatePositionSize` (strategy): three-way minimum of strength-based,
risk-based and affordability-based sizes.  `cfgMaxPositionSize` and
`cfgRiskPerTrade` are the global config values read by the source. -/
def calculatePositionSize (cfgMaxPositionSize cfgRiskPerTrade : ℚ)
    (stopLossPercent : ℚ) (signal : TradingSignal)
    (availableBalance currentPrice : ℚ) : ℚ :=
  let positionSize := cfgMaxPositionSize * signal.strength
  let riskAmount := availableBalance * cfgRiskPerTrade
  let stopLossDistance := currentPrice * stopLossPercent
  let riskBasedSize := riskAmount / stopLossDistance
  let positionSize := min positionSize riskBasedSize
  let maxAffordable := availableBalance / currentPrice * 0.95
  min positionSize maxAffordable

/-- Strategy parameters with the source defaults (entryThreshold 0.5,
exitThreshold 0.1, stop 5 percent, take-profit 10 percent) and a
stdDevMultiplier of 2. -/
def spEx : StrategyParams := ⟨20, 2, 0.5, 0.1, 0.05, 0.1, 0⟩

/-- Concrete two-bar window producing a SELL signal of strength 1/2, used by
the C8 witness. -/
def barLow : PriceData := ⟨0, 1, 1, 1, 1, 1⟩

def barHigh : PriceData := ⟨1, 3, 3, 3, 3, 1⟩

def spW : StrategyParams := ⟨2, 2, 0.5, 0.1, 0.05, 0.1, 0⟩

def sigW : TradingSignal := ⟨SignalType.SELL, 1/2, 3, 0⟩

structure BTState where
  balance : ℚ
  positions : List Position
  trades : List Trade
  peakBalance : ℚ
  maxDrawdown : ℚ
  riskDailyLoss : ℚ
  riskPeakBalance : ℚ
deriving DecidableEq, Repr

/-- Configuration read by the backtester: the risk parameters of its
`RiskManager`, the global config values used by `calculatePositionSize`,
the strategy's stop-loss percentage, and `strategyPeriod`
(= the strategy's `maPeriod`). -/
structure BTConfig where
  riskParams : RiskParams
  cfgMaxPositionSize : ℚ
  cfgRiskPerTrade : ℚ
  stopLossPercent : ℚ
  strategyPeriod : ℕ
deriving DecidableEq, Repr

/-- `executeBuy`: 0.25 percent fee, affordability guard, trade record and
new OPEN LONG position with 5 percent stop loss and 10 percent take
profit. -/
def executeBuy (st : BTState) (size price : ℚ) (timestamp : ℤ) : BTState :=
  let cost := size * price
  let fee := cost * 0.0025
  let totalCost := cost + fee
  if st.balance < totalCost then st
  else
    { st with
      balance := st.balance - totalCost
      trades := st.trades ++ [⟨timestamp, TradeSide.BUY, price, size, fee⟩]
      positions := st.positions ++
        [⟨price, timestamp, size, PositionSide.LONG,
          some (calculateStopLoss price PositionSide.LONG none),
          some (calculateTakeProfit price PositionSide.LONG 2),
          none, none, none, PositionStatus.OPEN⟩] }

/-- The position mutation performed by `executeSell`: status CLOSED,
`currentPrice` fixed at the exit price, pnl = exitValue − entryValue and
pnlPercent = pnl / entryValue × 100. -/
def closePosition (position : Position) (price : ℚ) : Position :=
  let entryValue := position.entryPrice * position.size
  let exitValue := price * position.size
  let pnl := exitValue - entryValue
  { position with
    status := PositionStatus.CLOSED
    currentPrice := some price
    pnl := some pnl
    pnlPercent := some (pnl / entryValue * 100) }

/-- `executeSell` on the position at index `i`: no-op unless that position
exists and is OPEN; otherwise credits the fee-deducted proceeds, appends a
SELL trade and closes the position. -/
def executeSell (st : BTState) (i : ℕ) (price : ℚ) (timestamp : ℤ) : BTState :=
  match st.positions[i]? with
  | none => st
  | some position =>
    if position.status ≠ PositionStatus.OPEN then st
    else
      let proceeds := position.size * price
      let fee := proceeds * 0.0025
      let netProceeds := proceeds - fee
      { st with
        balance := st.balance + netProceeds
        trades := st.trades ++ [⟨timestamp, TradeSide.SELL, price, position.size, fee⟩]
        positions := st.positions.set i (closePosition position price) }

/-- Per-position body of `updatePositionValues`. -/
def refreshPosition (currentPrice : ℚ) (position : Position) : Position :=
  if position.status = PositionStatus.OPEN then
    let entryValue := position.entryPrice * position.size
    let currentValue := currentPrice * position.size
    let pnl := currentValue - entryValue
    { position with
      currentPrice := some currentPrice
      pnl := some pnl
      pnlPercent := some (pnl / entryValue * 100) }
  else position

/-- `updatePositionValues`: refresh currentPrice/pnl/pnlPercent on every
OPEN position. -/
def updatePositionValues (st : BTState) (currentPrice : ℚ) : BTState :=
  { st with positions := st.positions.map (refreshPosition currentPrice) }

/-- `checkPositionExits`: iterate over the snapshot of OPEN positions and
sell each one whose exit condition holds at this bar's close. -/
def checkPositionExits (now : ℤ) (st : BTState) (currentData : PriceData) : BTState :=
  (List.range st.positions.length).foldl
    (fun s i =>
      match st.positions[i]? with
      | some position =>
        if position.status = PositionStatus.OPEN ∧ shouldClosePosition now position then
          executeSell s i currentData.close currentData.timestamp
        else s
      | none => s)
    st

/-- `closeAllPositions`: force-sell every position OPEN in the snapshot at
the final price (trade timestamps use `Date.now()`, modelled by `now`). -/
def closeAllPositions (now : ℤ) (st : BTState) (finalPrice : ℚ) : BTState :=
  (List.range st.positions.length).foldl
    (fun s i =>
      match st.positions[i]? with
      | some position =>
        if position.status = PositionStatus.OPEN then executeSell s i finalPrice now
        else s
      | none => s)
    st

/-- `updateBalanceTracking`: total equity = cash + mark-to-market value of
OPEN positions; peak only increases; drawdown re-derived from the updated
peak. -/
def updateBalanceTracking (st : BTState) : BTState :=
  let positionValue := st.positions.foldl
    (fun total position =>
      if position.status = PositionStatus.OPEN then
        total + position.size * (position.currentPrice.getD position.entryPrice)
      else total)
    0
  let totalValue := st.balance + positionValue
  let peak := if totalValue > st.peakBalance then totalValue else st.peakBalance
  let drawdown := (peak - totalValue) / peak
  { st with
    peakBalance := peak
    maxDrawdown := if drawdown > st.maxDrawdown then drawdown else st.maxDrawdown }

/-- `processSignal`: size the trade, validate it (threading the risk
manager's peak-balance write-back), then execute a BUY (balance permitting)
or a SELL against the first OPEN position.  `validation.adjustedSize ||
positionSize` is modelled by `Option.getD` (a Decimal object is always
truthy). -/
def processSignal (cfg : BTConfig) (signal : TradingSignal) (currentData : PriceData)
    (st : BTState) : BTState :=
  let openPositions := st.positions.filter
    (fun p => decide (p.status = PositionStatus.OPEN))
  let positionSize := calculatePositionSize cfg.cfgMaxPositionSize cfg.cfgRiskPerTrade
    cfg.stopLossPercent signal st.balance signal.price
  let validation := validateTrade cfg.riskParams ⟨st.riskDailyLoss, st.riskPeakBalance⟩
    signal positionSize st.balance openPositions
  let st := { st with riskPeakBalance := validation.2 }
  if validation.1.allowed = false then st
  else
    let finalSize := validation.1.adjustedSize.getD positionSize
    let cost := finalSize * signal.price
    if signal.type = SignalType.BUY ∧ st.balance ≥ cost then
      executeBuy st finalSize signal.price currentData.timestamp
    else if signal.type = SignalType.SELL ∧ 0 < openPositions.length then
      match st.positions.findIdx? (fun p => decide (p.status = PositionStatus.OPEN)) with
      | some i => executeSell st i signal.price currentData.timestamp
      | none => st
    else st

/-- One iteration of the `runBacktest` loop: push the bar, trim the window
to 2×strategyPeriod bars, skip until the window reaches strategyPeriod,
then refresh positions, evaluate exits, process a non-HOLD signal and
update balance tracking. -/
def btStep (cfg : BTConfig) (sig : List PriceData → Option TradingSignal) (now : ℤ)
    (acc : List PriceData × BTState) (currentData : PriceData) :
    List PriceData × BTState :=
  let window := acc.1 ++ [currentData]
  let window := if window.length > cfg.strategyPeriod * 2 then
      sliceLast (cfg.strategyPeriod * 2) window
    else window
  if window.length < cfg.strategyPeriod then (window, acc.2)
  else
    let st := updatePositionValues acc.2 currentData.close
    let st := checkPositionExits now st currentData
    let st := match sig window with
      | some s => if s.type ≠ SignalType.HOLD then processSignal cfg s currentData st
                  else st
      | none => st
    let st := updateBalanceTracking st
    (window, st)

/-- `runBacktest` without the final statistics record: fatal error (`none`)
when no historical data is available, otherwise drive every bar through the
loop and force-close all remaining OPEN positions at the last bar's close.
The initial state has `peakBalance = balance` (constructor) and a fresh
`RiskManager` (zero counters). -/
def runBacktest (cfg : BTConfig) (sig : List PriceData → Option TradingSignal)
    (now : ℤ) (initialBalance : ℚ) (historicalData : List PriceData) :
    Option BTState :=
  if historicalData.length = 0 then none
  else
    let st0 : BTState := ⟨initialBalance, [], [], initialBalance, 0, 0, 0⟩
    let res := historicalData.foldl (btStep cfg sig now) ([], st0)
    some (closeAllPositions now res.2 (historicalData.getLastD default).close)

/-- `calculateSharpeRatio`: mean over population standard deviation of the
per-trade fractional returns, with the guards of the source (< 2 positions,
no returns, stdDev not > 0).  `sqrtQ` is the `Math.sqrt` oracle. -/
def calculateSharpeRatio (sqrtQ : ℚ → ℚ) (positions : List Position) : ℚ :=
  if positions.length < 2 then 0
  else
    let returns := ((positions.filter (fun p => p.pnl.isSome)).map
      (fun p => p.pnlPercent.getD 0)).map (fun pct => pct / 100)
    if returns.length = 0 then 0
    else
      let avgReturn := returns.sum / (returns.length : ℚ)
      let variance :=
        (returns.map (fun ret => (ret - avgReturn) * (ret - avgReturn))).sum /
          (returns.length : ℚ)
      let stdDev := sqrtQ variance
      if stdDev > 0 then avgReturn / stdDev else 0

def meanQ (l : List ℚ) : ℚ := l.sum / (l.length : ℚ)

def popVarianceQ (l : List ℚ) : ℚ :=
  (l.map (fun x => (x - meanQ l) ^ 2)).sum / (l.length : ℚ)

/-- Sharpe ratio as worded in the spec: mean of trade-level percent returns
(as fractions) divided by their population standard deviation; 0 when fewer
than two closed trades or the standard deviation is 0. -/
def sharpeSpec (sqrtQ : ℚ → ℚ) (positions : List Position) : ℚ :=
  let returns := positions.map (fun p => p.pnlPercent.getD 0 / 100)
  if positions.length < 2 ∨ sqrtQ (popVarianceQ returns) = 0 then 0
  else meanQ returns / sqrtQ (popVarianceQ returns)

/-- Backtester state holding one OPEN LONG position (entry 1, size 1). -/
def stEx : BTState := ⟨100, [posEx], [], 100, 0, 0, 0⟩

/-- Two CLOSED positions with pnlPercent 10 and 30. -/
def posC : Position :=
  ⟨1, 0, 1, PositionSide.LONG, none, none, some 1.1, some (0.1), some 10,
    PositionStatus.CLOSED⟩

def posD : Position :=
  ⟨1, 0, 1, PositionSide.LONG, none, none, some 1.3, some (0.3), some 30,
    PositionStatus.CLOSED⟩

def sellCount (trades : List Trade) : ℕ :=
  trades.countP (fun t => decide (t.side = TradeSide.SELL))

def closedCount (positions : List Position) : ℕ :=
  positions.countP (fun p => decide (p.status = PositionStatus.CLOSED))

/-- Ledger invariant: the backtester only ever creates OPEN or CLOSED
positions, and the number of SELL trades equals the number of CLOSED
positions. -/
def LedgerInv (st : BTState) : Prop :=
  (∀ p ∈ st.positions,
    p.status = PositionStatus.OPEN ∨ p.status = PositionStatus.CLOSED) ∧
  sellCount st.trades = closedCount st.positions

/-- Constant-signal strategy used by the C6 witness: always BUY at price 1
with strength 0.5. -/
def sigBuyF : List PriceData → Option TradingSignal :=
  fun _ => some ⟨SignalType.BUY, 0.5, 1, 0⟩

def barOne : PriceData := ⟨7, 1, 1, 1, 1, 1000⟩

def cfgEx : BTConfig := ⟨rpEx, 1000, 0.02, 0.05, 1⟩

def st0Ex : BTState := ⟨10000, [], [], 10000, 0, 0, 0⟩

/-- The position opened by the C6 witness run. -/
def posOpenEx : Position :=
  ⟨1, 7, 500, PositionSide.LONG, some (19/20), some (11/10), none, none, none,
    PositionStatus.OPEN⟩

def stBuyEx : BTState :=
  ⟨37995/4, [posOpenEx], [⟨7, TradeSide.BUY, 1, 500, 5/4⟩], 10000, 0, 0, 10000⟩

def stTrackedEx : BTState :=
  ⟨37995/4, [posOpenEx], [⟨7, TradeSide.BUY, 1, 500, 5/4⟩], 10000, 1/8000, 0, 10000⟩

/-- The final state of the one-bar C6 witness run: one position bought for
500 (fee 1.25) and force-closed at the same price (fee 1.25 again). -/
def finalStEx : BTState :=
  ⟨19995/2,
   [⟨1, 7, 500, PositionSide.LONG, some (19/20), some (11/10), some 1, some 0, some 0,
     PositionStatus.CLOSED⟩],
   [⟨7, TradeSide.BUY, 1, 500, 5/4⟩, ⟨0, TradeSide.SELL, 1, 500, 5/4⟩],
   10000, 1/8000, 0, 10000⟩

/-- Invariant: nonnegative cash balance and nonnegative position sizes. -/
def SizesNonneg (st : BTState) : Prop :=
  0 ≤ st.balance ∧ ∀ p ∈ st.positions, 0 ≤ p.size

def spFlat : StrategyParams := ⟨1, 2, 0.5, 0.1, 0.05, 0.1, 0⟩

def barFive : PriceData := ⟨0, 5, 5, 5, 5, 1000⟩

/-! ## Theorems -/

/-- C1 counterexample: with the open-position-count, daily-loss and drawdown
checks all passing and a signal of strength 0.2 < 0.4, `validateTrade`
nevertheless returns `allowed = true` on the exposure-shrink path
(proposed size 600 at price 1 against balance 1000 is shrunk to 500):
the strength check at the end of `validateTrade` is never reached on that
path, refuting the claim as stated. -/
theorem validateTrade_weak_signal_allowed_on_shrink_path :
    sigWeak.strength < 0.4 ∧
    ([] : List Position).length < rpEx.maxOpenPositions ∧
    isDailyLossLimitExceeded rpEx rsEx = false ∧
    (isDrawdownLimitExceeded rpEx rsEx 1000).1 = false ∧
    (validateTrade rpEx rsEx sigWeak 600 1000 []).1.allowed = true ∧
    (validateTrade rpEx rsEx sigWeak 600 1000 []).1.adjustedSize = some 500 := by
  refine ⟨by norm_num [sigWeak], by norm_num [rpEx],
    by norm_num [isDailyLossLimitExceeded, rpEx, rsEx],
    by norm_num [isDrawdownLimitExceeded, rpEx, rsEx], ?_, ?_⟩ <;>
  · norm_num [validateTrade, isDailyLossLimitExceeded, isDrawdownLimitExceeded,
      calculateTotalExposure, rpEx, rsEx, sigWeak]

/-- C1 (amended): when the open-position-count, daily-loss and drawdown
checks pass, a signal with strength < 0.4 is rejected on the path where the
total-exposure check passes without adjustment; on the exposure-shrink path
(new exposure above 50 percent of balance but positive headroom left) the
trade is approved with a shrunken size without the strength check ever
running. -/
theorem validateTrade_weak_signal_rejected_unless_shrunk
    (params : RiskParams) (st : RiskState) (signal : TradingSignal)
    (proposedSize currentBalance : ℚ) (openPositions : List Position)
    (h1 : openPositions.length < params.maxOpenPositions)
    (h2 : isDailyLossLimitExceeded params st = false)
    (h3 : (isDrawdownLimitExceeded params st currentBalance).1 = false)
    (hs : signal.strength < 0.4) :
    (calculateTotalExposure openPositions + proposedSize * signal.price ≤
        currentBalance * 0.5 →
      (validateTrade params st signal proposedSize currentBalance
        openPositions).1.allowed = false) ∧
    (currentBalance * 0.5 <
        calculateTotalExposure openPositions + proposedSize * signal.price →
      0 < currentBalance * 0.5 - calculateTotalExposure openPositions →
      (validateTrade params st signal proposedSize currentBalance
        openPositions).1.allowed = true) := by
  simp only [validateTrade]
  constructor
  · intro hexp
    split_ifs <;> simp_all <;> first | omega | linarith
  · intro hgt hpos
    split_ifs <;> simp_all <;> first | omega | linarith

/-- C1 witness for the amended theorem: a weak (0.2) signal with small
proposed exposure is rejected. -/
theorem validateTrade_weak_signal_rejected_unless_shrunk_witness :
    (validateTrade rpEx rsEx sigWeak 20 1000 []).1.allowed = false :=
  (validateTrade_weak_signal_rejected_unless_shrunk rpEx rsEx sigWeak 20 1000 []
      (by norm_num [rpEx])
      (by norm_num [isDailyLossLimitExceeded, rpEx, rsEx])
      (by norm_num [isDrawdownLimitExceeded, rpEx, rsEx])
      (by norm_num [sigWeak])).1
    (by norm_num [calculateTotalExposure, sigWeak])

/-- C2: `validateTrade` rejects whenever the open-position count already
reached `maxOpenPositions`; consequently an approved trade never pushes the
count above the maximum. -/
theorem validateTrade_respects_maxOpenPositions
    (params : RiskParams) (st : RiskState) (signal : TradingSignal)
    (proposedSize currentBalance : ℚ) (openPositions : List Position) :
    (openPositions.length ≥ params.maxOpenPositions →
      (validateTrade params st signal proposedSize currentBalance
        openPositions).1.allowed = false) ∧
    ((validateTrade params st signal proposedSize currentBalance
        openPositions).1.allowed = true →
      openPositions.length + 1 ≤ params.maxOpenPositions) := by
  constructor
  · intro h
    simp only [validateTrade]
    rw [if_pos h]
  · intro h
    by_contra hc
    have hge : openPositions.length ≥ params.maxOpenPositions := by omega
    simp only [validateTrade] at h
    rw [if_pos hge] at h
    simp at h

/-- C2 witness: with three open positions and `maxOpenPositions = 3` the
trade is rejected. -/
theorem validateTrade_respects_maxOpenPositions_witness :
    (validateTrade rpEx rsEx sigWeak 1 100 [posEx, posEx, posEx]).1.allowed = false :=
  (validateTrade_respects_maxOpenPositions rpEx rsEx sigWeak 1 100
      [posEx, posEx, posEx]).1 (by norm_num [rpEx])

/-- C5: whenever `validateTrade` approves with an adjusted size, that size is
at most the proposed size — on the exposure-shrink path because the headroom
is strictly below the proposed notional, and on the risk-capping path because
the final size is a minimum including the proposed size.  The positive-price
hypothesis reflects that signal prices are strictly positive. -/
theorem validateTrade_adjustedSize_le_proposed
    (params : RiskParams) (st : RiskState) (signal : TradingSignal)
    (proposedSize currentBalance a : ℚ) (openPositions : List Position)
    (hp : 0 < signal.price)
    (hall : (validateTrade params st signal proposedSize currentBalance
        openPositions).1.allowed = true)
    (ha : (validateTrade params st signal proposedSize currentBalance
        openPositions).1.adjustedSize = some a) :
    a ≤ proposedSize := by
  simp only [validateTrade] at hall ha
  split_ifs at ha with c1 c2 c3 c4 c5 c6 c7 c8 <;> try simp_all
  · -- exposure-shrink path
    have hlt : currentBalance * 0.5 - calculateTotalExposure openPositions <
        proposedSize * signal.price := by linarith
    rw [← ha, div_le_iff₀ hp]
    linarith
  · -- risk-capping path
    rw [← ha]
    exact le_trans (min_le_left _ _) (min_le_left _ _)

/-- C5 witness: the shrink path adjusts 600 down to 500 ≤ 600. -/
theorem validateTrade_adjustedSize_le_proposed_witness :
    (validateTrade rpEx rsEx sigWeak 600 1000 []).1.adjustedSize = some 500 ∧
    (500 : ℚ) ≤ 600 :=
  ⟨by norm_num [validateTrade, isDailyLossLimitExceeded, isDrawdownLimitExceeded,
      calculateTotalExposure, rpEx, rsEx, sigWeak],
   validateTrade_adjustedSize_le_proposed rpEx rsEx sigWeak 600 1000 500 []
     (by norm_num [sigWeak])
     (by norm_num [validateTrade, isDailyLossLimitExceeded, isDrawdownLimitExceeded,
        calculateTotalExposure, rpEx, rsEx, sigWeak])
     (by norm_num [validateTrade, isDailyLossLimitExceeded, isDrawdownLimitExceeded,
        calculateTotalExposure, rpEx, rsEx, sigWeak])⟩

/-- C3 counterexample: at the boundary z-score z = entryThreshold (0.5 here,
strictly below stdDevMultiplier = 2) the classification stage of
`generateSignal` yields HOLD with strength 0, not SELL: the source compares
with strict `gt`/`lt`, so the boundary values z = ±entryThreshold are
excluded, refuting the claim as stated. -/
theorem signalBase_boundary_entryThreshold_not_sell :
    spEx.entryThreshold = 0.5 ∧ spEx.stdDevMultiplier = 2 ∧
    signalBase spEx 0.5 none = (SignalType.HOLD, 0) := by
  refine ⟨rfl, rfl, ?_⟩
  norm_num [signalBase, spEx, abs_of_nonneg]

/-- C3 (amended): for configurations with 0 ≤ entryThreshold <
stdDevMultiplier, every z-score strictly between entryThreshold and
stdDevMultiplier is classified SELL with base strength min(|z|/2, 0.7), and
every z strictly between −stdDevMultiplier and −entryThreshold is classified
BUY with the same base strength; the boundary values z = ±entryThreshold are
excluded (strict comparisons in the source). -/
theorem signalBase_moderate_band_strict
    (params : StrategyParams) (z : ℚ) (rsi : Option ℚ)
    (he : 0 ≤ params.entryThreshold) (hm : 0 < params.stdDevMultiplier) :
    (params.entryThreshold < z → z < params.stdDevMultiplier →
      signalBase params z rsi = (SignalType.SELL, min (|z| / 2) 0.7)) ∧
    (-params.stdDevMultiplier < z → z < -params.entryThreshold →
      signalBase params z rsi = (SignalType.BUY, min (|z| / 2) 0.7)) := by
  constructor
  · intro h1 h2
    have hz0 : 0 < z := lt_of_le_of_lt he h1
    simp only [signalBase]
    rw [if_neg (by push_neg; linarith), if_neg (by push_neg; linarith),
      if_neg (fun hc => absurd hc.1 (by push_neg; linarith)), if_pos ⟨h1, h2⟩]
  · intro h1 h2
    have hz0 : z < 0 := lt_of_lt_of_le h2 (by linarith)
    simp only [signalBase]
    rw [if_neg (by push_neg; linarith), if_neg (by push_neg; linarith),
      if_pos ⟨h2, h1⟩]

/-- C3 witness for the amended theorem: z = 1 strictly inside
(0.5, 2) is classified SELL with base strength min(1/2, 0.7) = 1/2. -/
theorem signalBase_moderate_band_strict_witness :
    signalBase spEx 1 none = (SignalType.SELL, min (|(1 : ℚ)| / 2) 0.7) :=
  (signalBase_moderate_band_strict spEx 1 none (by norm_num [spEx])
    (by norm_num [spEx])).1 (by norm_num [spEx]) (by norm_num [spEx])

/-- Every base strength produced by the classification stage lies in [0,1]. -/
lemma signalBase_strength_mem_unit (params : StrategyParams) (z : ℚ)
    (rsi : Option ℚ) :
    0 ≤ (signalBase params z rsi).2 ∧ (signalBase params z rsi).2 ≤ 1 := by
  cases rsi <;>
    · simp only [signalBase]
      split_ifs <;>
        refine ⟨by positivity, ?_⟩ <;>
          first
            | exact min_le_right _ _
            | exact le_trans (min_le_right _ _) (by norm_num)
            | norm_num

/-- The confirmation filters keep a strength in [0,1] inside [0,1]. -/
lemma applyFilters_mem_unit (currentPrice : ℚ) (indicators : Indicators)
    (sigType : SignalType) (strength0 : ℚ)
    (h0 : 0 ≤ strength0) (h1 : strength0 ≤ 1) :
    0 ≤ applyFilters currentPrice indicators sigType strength0 ∧
      applyFilters currentPrice indicators sigType strength0 ≤ 1 := by
  cases hema : indicators.ema <;>
    · simp only [applyFilters, hema]
      split_ifs <;>
        refine ⟨?_, ?_⟩ <;>
          first
            | assumption
            | exact min_le_right _ _
            | exact le_min (by linarith) (by norm_num)
            | exact
                le_min (add_nonneg (le_min (by linarith) (by norm_num)) (by norm_num))
                  (by norm_num)

/-- C8: every signal returned by `analyze` has strength in [0,1], for every
oracle (hence for the library RSI/EMA/sqrt), every parameter set, every
price window and volume: all base strengths and additive boosts are capped
at 1 and never negative. -/
theorem analyze_strength_in_unit_interval
    (sqrtQ : ℚ → ℚ) (rsiF emaF : List ℚ → Option ℚ)
    (params : StrategyParams) (now : ℤ) (priceHistory : List PriceData)
    (s : TradingSignal)
    (h : analyze sqrtQ rsiF emaF params now priceHistory = some s) :
    0 ≤ s.strength ∧ s.strength ≤ 1 := by
  simp only [analyze] at h
  split_ifs at h
  rcases hci : calculateIndicators sqrtQ rsiF emaF params
      (priceHistory.map (fun p => p.close)) with _ | ind
  · rw [hci] at h
    exact absurd h (by simp)
  · rw [hci] at h
    simp only [generateSignal] at h
    split_ifs at h with hv hs
    injection h with h
    subst h
    have hb := signalBase_strength_mem_unit params
      (((priceHistory.map (fun p => p.close)).getLastD 0 - ind.sma) / ind.stdDev)
      ind.rsi
    exact applyFilters_mem_unit _ ind _ _ hb.1 hb.2

/-- C8 witness: on the window [1, 3] with maPeriod 2 the strategy emits a
SELL signal whose strength 1/2 lies in [0,1]. -/
theorem analyze_strength_in_unit_interval_witness :
    analyze (fun x => x) (fun _ => none) (fun _ => none) spW 0 [barLow, barHigh]
        = some sigW ∧
    0 ≤ sigW.strength ∧ sigW.strength ≤ 1 := by
  have heq : analyze (fun x => x) (fun _ => none) (fun _ => none) spW 0
      [barLow, barHigh] = some sigW := by
    norm_num [analyze, calculateIndicators, smaLast, sliceLast, generateSignal,
      signalBase, applyFilters, spW, barLow, barHigh, sigW, abs_of_nonneg,
      List.getLastD]
  exact ⟨heq,
    analyze_strength_in_unit_interval (fun x => x) (fun _ => none) (fun _ => none)
      spW 0 [barLow, barHigh] sigW heq⟩

/-- C7: selling an OPEN LONG position at exit price `price` closes it with
pnl exactly (price − entryPrice) × size and pnlPercent exactly
pnl / (entryPrice × size) × 100, in exact arithmetic. -/
theorem executeSell_long_pnl_exact
    (st : BTState) (i : ℕ) (price : ℚ) (timestamp : ℤ) (position : Position)
    (hpos : st.positions[i]? = some position)
    (hopen : position.status = PositionStatus.OPEN)
    (hlong : position.side = PositionSide.LONG) :
    (executeSell st i price timestamp).positions =
      st.positions.set i (closePosition position price) ∧
    (closePosition position price).status = PositionStatus.CLOSED ∧
    (closePosition position price).pnl =
      some ((price - position.entryPrice) * position.size) ∧
    (closePosition position price).pnlPercent =
      some ((price - position.entryPrice) * position.size /
        (position.entryPrice * position.size) * 100) := by
  refine ⟨?_, rfl, ?_, ?_⟩
  · simp only [executeSell, hpos]
    rw [if_neg (by simp [hopen])]
  · simp only [closePosition]
    congr 1
    ring
  · simp only [closePosition]
    congr 2
    ring

/-- C7 witness: selling that position at price 3 yields pnl 2 and
pnlPercent 200. -/
theorem executeSell_long_pnl_exact_witness :
    (executeSell stEx 0 3 5).positions = stEx.positions.set 0 (closePosition posEx 3) ∧
    (closePosition posEx 3).status = PositionStatus.CLOSED ∧
    (closePosition posEx 3).pnl = some 2 ∧
    (closePosition posEx 3).pnlPercent = some 200 := by
  obtain ⟨h1, h2, h3, h4⟩ := executeSell_long_pnl_exact stEx 0 3 5 posEx
    (by simp [stEx]) (by simp [posEx]) (by simp [posEx])
  refine ⟨h1, h2, ?_, ?_⟩
  · rw [h3]; norm_num [posEx]
  · rw [h4]; norm_num [posEx]

/-- C9: `calculateSharpeRatio` computes exactly the spec's formula — mean of
the per-trade fractional returns divided by their population standard
deviation (divide by N), 0 when fewer than two positions or the standard
deviation is 0 — whenever the square-root oracle is nonnegative on
nonnegative inputs (true of `Math.sqrt`) and every position has its pnl set
(true of every CLOSED backtester position). -/
theorem calculateSharpeRatio_eq_spec
    (sqrtQ : ℚ → ℚ) (positions : List Position)
    (hsq : ∀ x, 0 ≤ x → 0 ≤ sqrtQ x)
    (hp : ∀ p ∈ positions, p.pnl.isSome) :
    calculateSharpeRatio sqrtQ positions = sharpeSpec sqrtQ positions := by
  have hfilter : positions.filter (fun p => p.pnl.isSome) = positions :=
    List.filter_eq_self.mpr (fun p hp2 => by simpa using hp p hp2)
  have hmap : ((positions.filter (fun p => p.pnl.isSome)).map
      (fun p => p.pnlPercent.getD 0)).map (fun pct => pct / 100) =
      positions.map (fun p => p.pnlPercent.getD 0 / 100) := by
    rw [hfilter, List.map_map]
    rfl
  by_cases h2 : positions.length < 2
  · simp only [calculateSharpeRatio, sharpeSpec]
    rw [if_pos h2, if_pos (Or.inl h2)]
  · have hlen : (positions.map (fun p => p.pnlPercent.getD 0 / 100)).length =
        positions.length := List.length_map _ _
    have hlen0 : ¬ (positions.map (fun p => p.pnlPercent.getD 0 / 100)).length = 0 := by
      rw [hlen]; omega
    simp only [calculateSharpeRatio, sharpeSpec, hmap]
    rw [if_neg h2, if_neg hlen0]
    set returns := positions.map (fun p => p.pnlPercent.getD 0 / 100) with hret
    have hvar : (returns.map (fun ret =>
        (ret - returns.sum / (returns.length : ℚ)) *
          (ret - returns.sum / (returns.length : ℚ)))).sum / (returns.length : ℚ) =
        popVarianceQ returns := by
      simp only [popVarianceQ, meanQ, pow_two]
    rw [hvar]
    have hvnn : 0 ≤ popVarianceQ returns := by
      unfold popVarianceQ
      refine div_nonneg (List.sum_nonneg ?_) (by positivity)
      intro x hx
      rcases List.mem_map.1 hx with ⟨r, _, rfl⟩
      show 0 ≤ (r - meanQ returns) ^ 2
      positivity
    by_cases hz : sqrtQ (popVarianceQ returns) = 0
    · rw [if_neg (by rw [hz]; exact lt_irrefl (0 : ℚ)), if_pos (Or.inr hz)]
    · have hpos : 0 < sqrtQ (popVarianceQ returns) :=
        lt_of_le_of_ne (hsq _ hvnn) (Ne.symm hz)
      rw [if_pos hpos, if_neg (not_or.mpr ⟨h2, hz⟩)]
      simp only [meanQ]

/-- C9 witness: with the identity square-root oracle (vacuously nonnegative
on nonnegative inputs), the code and spec formulas agree and evaluate to
mean 0.2 over variance 0.01, i.e. 20. -/
theorem calculateSharpeRatio_eq_spec_witness :
    calculateSharpeRatio (fun x => x) [posC, posD] =
      sharpeSpec (fun x => x) [posC, posD] ∧
    sharpeSpec (fun x => x) [posC, posD] = 20 := by
  refine ⟨calculateSharpeRatio_eq_spec (fun x => x) [posC, posD]
    (fun x hx => hx) (by simp [posC, posD]), ?_⟩
  norm_num [sharpeSpec, popVarianceQ, meanQ, posC, posD]

lemma foldl_preserve {α β : Type} (P : α → Prop) (f : α → β → α) :
    ∀ (l : List β) (s : α), P s → (∀ a, ∀ b ∈ l, P a → P (f a b)) →
      P (l.foldl f s) := by
  intro l
  induction l with
  | nil => exact fun s hs _ => hs
  | cons b l ih =>
    intro s hs hf
    exact ih (f s b) (hf s b (List.mem_cons_self b l) hs)
      (fun a b2 hb2 ha => hf a b2 (List.mem_cons_of_mem b hb2) ha)

lemma getLastD_mem {α : Type} (l : List α) (d : α) (h : l ≠ []) :
    l.getLastD d ∈ l := by
  rw [List.getLastD_eq_getLast?, List.getLast?_eq_getLast l h]
  simpa using List.getLast_mem h

lemma countP_set {α : Type} (p : α → Bool) :
    ∀ (l : List α) (i : ℕ) (a b : α), l[i]? = some a →
      (l.set i b).countP p + (if p a then 1 else 0) =
        l.countP p + (if p b then 1 else 0) := by
  intro l
  induction l with
  | nil => intro i a b h; simp at h
  | cons x l ih =>
    intro i a b h
    cases i with
    | zero =>
      simp only [List.getElem?_cons_zero, Option.some.injEq] at h
      subst h
      simp only [List.set]
      rw [List.countP_cons, List.countP_cons]
      split_ifs <;> omega
    | succ i =>
      have h2 : l[i]? = some a := by simpa using h
      have ih2 := ih i a b h2
      simp only [List.set]
      rw [List.countP_cons, List.countP_cons]
      split_ifs at ih2 ⊢ <;> omega

lemma executeSell_of_open (s : BTState) (i : ℕ) (price : ℚ) (ts : ℤ)
    (pos : Position) (hp : s.positions[i]? = some pos)
    (ho : pos.status = PositionStatus.OPEN) :
    executeSell s i price ts =
      { s with
        balance := s.balance + (pos.size * price - pos.size * price * 0.0025)
        trades := s.trades ++
          [⟨ts, TradeSide.SELL, price, pos.size, pos.size * price * 0.0025⟩]
        positions := s.positions.set i (closePosition pos price) } := by
  simp only [executeSell, hp]
  rw [if_neg (by simp [ho])]

lemma executeSell_noop (s : BTState) (i : ℕ) (price : ℚ) (ts : ℤ)
    (h : ∀ pos, s.positions[i]? = some pos → pos.status ≠ PositionStatus.OPEN) :
    executeSell s i price ts = s := by
  rcases hp : s.positions[i]? with _ | pos
  · simp [executeSell, hp]
  · simp only [executeSell, hp]
    rw [if_pos (h pos hp)]

lemma refreshPosition_status (price : ℚ) (q : Position) :
    (refreshPosition price q).status = q.status := by
  unfold refreshPosition
  split_ifs <;> rfl

lemma refreshPosition_size (price : ℚ) (q : Position) :
    (refreshPosition price q).size = q.size := by
  unfold refreshPosition
  split_ifs <;> rfl

lemma closePosition_status (pos : Position) (price : ℚ) :
    (closePosition pos price).status = PositionStatus.CLOSED := rfl

lemma closePosition_size (pos : Position) (price : ℚ) :
    (closePosition pos price).size = pos.size := rfl

lemma executeBuy_ledger (st : BTState) (size price : ℚ) (ts : ℤ)
    (h : LedgerInv st) : LedgerInv (executeBuy st size price ts) := by
  simp only [executeBuy]
  split_ifs with hb
  · exact h
  refine ⟨?_, ?_⟩
  · intro p hp
    simp only [List.mem_append, List.mem_singleton] at hp
    rcases hp with hp | rfl
    · exact h.1 p hp
    · left
      rfl
  · show sellCount (st.trades ++ _) = closedCount (st.positions ++ _)
    have h2 := h.2
    unfold sellCount closedCount at h2 ⊢
    rw [List.countP_append, List.countP_append]
    simp only [List.countP_cons, List.countP_nil]
    simp
    omega

lemma executeSell_ledger (st : BTState) (i : ℕ) (price : ℚ) (ts : ℤ)
    (h : LedgerInv st) : LedgerInv (executeSell st i price ts) := by
  rcases hp : st.positions[i]? with _ | pos
  · rw [executeSell_noop st i price ts (fun q hq => by rw [hp] at hq; cases hq)]
    exact h
  by_cases ho : pos.status = PositionStatus.OPEN
  · rw [executeSell_of_open st i price ts pos hp ho]
    refine ⟨?_, ?_⟩
    · intro q hq
      rcases List.mem_or_eq_of_mem_set hq with hq | rfl
      · exact h.1 q hq
      · right
        rfl
    · show sellCount (st.trades ++ _) = closedCount (st.positions.set i _)
      have h2 := h.2
      unfold sellCount closedCount at h2 ⊢
      rw [List.countP_append]
      have hset := countP_set (fun p => decide (p.status = PositionStatus.CLOSED))
        st.positions i pos (closePosition pos price) hp
      rw [if_neg (by simp [ho]), if_pos (by simp [closePosition_status])] at hset
      simp only [List.countP_cons, List.countP_nil]
      simp
      omega
  · rw [executeSell_noop st i price ts
      (fun q hq => by rw [hp] at hq; injection hq with hq; exact hq ▸ ho)]
    exact h

lemma updatePositionValues_ledger (st : BTState) (price : ℚ)
    (h : LedgerInv st) : LedgerInv (updatePositionValues st price) := by
  unfold updatePositionValues
  refine ⟨?_, ?_⟩
  · intro p hp
    simp only [List.mem_map] at hp
    rcases hp with ⟨q, hq, rfl⟩
    rw [refreshPosition_status]
    exact h.1 q hq
  · show sellCount st.trades = closedCount (st.positions.map _)
    have h2 := h.2
    unfold sellCount closedCount at h2 ⊢
    rw [List.countP_map]
    refine h2.trans (List.countP_congr ?_).symm
    intro q hq
    simp [Function.comp, refreshPosition_status]

lemma updateBalanceTracking_ledger (st : BTState) (h : LedgerInv st) :
    LedgerInv (updateBalanceTracking st) := h

lemma processSignal_ledger (cfg : BTConfig) (signal : TradingSignal)
    (currentData : PriceData) (st : BTState) (h : LedgerInv st) :
    LedgerInv (processSignal cfg signal currentData st) := by
  simp only [processSignal]
  split_ifs with ha hbuy hsell
  · exact h
  · exact executeBuy_ledger _ _ _ _ h
  · split
    · exact executeSell_ledger _ _ _ _ h
    · exact h
  · exact h

lemma checkPositionExits_ledger (now : ℤ) (st : BTState) (currentData : PriceData)
    (h : LedgerInv st) : LedgerInv (checkPositionExits now st currentData) := by
  unfold checkPositionExits
  refine foldl_preserve _ _ _ _ h ?_
  intro s i _ hs
  dsimp only
  split
  · split_ifs with hc
    · exact executeSell_ledger _ _ _ _ hs
    · exact hs
  · exact hs

lemma closeAllPositions_ledger (now : ℤ) (st : BTState) (finalPrice : ℚ)
    (h : LedgerInv st) : LedgerInv (closeAllPositions now st finalPrice) := by
  unfold closeAllPositions
  refine foldl_preserve _ _ _ _ h ?_
  intro s i _ hs
  dsimp only
  split
  · split_ifs with hc
    · exact executeSell_ledger _ _ _ _ hs
    · exact hs
  · exact hs

lemma btStep_ledger (cfg : BTConfig) (sig : List PriceData → Option TradingSignal)
    (now : ℤ) (acc : List PriceData × BTState) (currentData : PriceData)
    (h : LedgerInv acc.2) : LedgerInv (btStep cfg sig now acc currentData).2 := by
  simp only [btStep]
  split_ifs with htrim hskip hskip2
  · exact h
  · have hbase : LedgerInv (checkPositionExits now
        (updatePositionValues acc.2 currentData.close) currentData) :=
      checkPositionExits_ledger _ _ _ (updatePositionValues_ledger _ _ h)
    dsimp only
    refine updateBalanceTracking_ledger _ ?_
    split
    · split_ifs with hh
      · exact processSignal_ledger _ _ _ _ hbase
      · exact hbase
    · exact hbase
  · exact h
  · have hbase : LedgerInv (checkPositionExits now
        (updatePositionValues acc.2 currentData.close) currentData) :=
      checkPositionExits_ledger _ _ _ (updatePositionValues_ledger _ _ h)
    dsimp only
    refine updateBalanceTracking_ledger _ ?_
    split
    · split_ifs with hh
      · exact processSignal_ledger _ _ _ _ hbase
      · exact hbase
    · exact hbase

lemma closeAll_sweep (now : ℤ) (st : BTState) (finalPrice : ℚ)
    (hst : ∀ p ∈ st.positions,
      p.status = PositionStatus.OPEN ∨ p.status = PositionStatus.CLOSED) :
    ∀ (L : List ℕ), L.Nodup → ∀ s : BTState,
      (∀ i ∈ L, s.positions[i]? = st.positions[i]?) →
      (∀ j, j ∉ L → ∀ q, s.positions[j]? = some q →
        q.status = PositionStatus.CLOSED) →
      ∀ (j : ℕ) (q : Position),
        (L.foldl (fun s i =>
          match st.positions[i]? with
          | some position =>
            if position.status = PositionStatus.OPEN then
              executeSell s i finalPrice now
            else s
          | none => s) s).positions[j]? = some q →
        q.status = PositionStatus.CLOSED := by
  intro L
  induction L with
  | nil =>
    intro _ s _ hdone j q hq
    rw [List.foldl_nil] at hq
    exact hdone j (List.not_mem_nil j) q hq
  | cons i L ih =>
    intro hnd s hsame hdone j q hq
    rw [List.foldl_cons] at hq
    have hndL : L.Nodup := (List.nodup_cons.1 hnd).2
    have hiL : i ∉ L := (List.nodup_cons.1 hnd).1
    have hsi : s.positions[i]? = st.positions[i]? :=
      hsame i (List.mem_cons_self _ _)
    refine ih hndL _ ?_ ?_ j q hq
    · intro k hk
      have hki : i ≠ k := fun he => hiL (he ▸ hk)
      rcases hp : st.positions[i]? with _ | pos
      · simp only [hp]
        exact hsame k (List.mem_cons_of_mem _ hk)
      · simp only [hp]
        split_ifs with ho
        · rw [executeSell_of_open s i finalPrice now pos (by rw [hsi, hp]) ho]
          dsimp only
          rw [List.getElem?_set_ne hki]
          exact hsame k (List.mem_cons_of_mem _ hk)
        · exact hsame k (List.mem_cons_of_mem _ hk)
    · intro j2 hj2 q2 hq2
      by_cases hji : j2 = i
      · subst hji
        rcases hp : st.positions[j2]? with _ | pos
        · simp only [hp] at hq2
          rw [hsame j2 (List.mem_cons_self _ _), hp] at hq2
          cases hq2
        · have hsj : s.positions[j2]? = some pos := by rw [hsi, hp]
          have hmem : pos ∈ st.positions := List.mem_iff_getElem?.2 ⟨j2, hp⟩
          rcases hst pos hmem with ho | hc
          · simp only [hp] at hq2
            rw [if_pos ho] at hq2
            rw [executeSell_of_open s j2 finalPrice now pos hsj ho] at hq2
            dsimp only at hq2
            have hlt : j2 < s.positions.length :=
              (List.getElem?_eq_some.1 hsj).1
            rw [List.getElem?_set, if_pos rfl, if_pos hlt] at hq2
            injection hq2 with hq2
            rw [← hq2]
            rfl
          · simp only [hp] at hq2
            rw [if_neg (by simp [hc])] at hq2
            rw [hsj] at hq2
            injection hq2 with hq2
            rw [← hq2]
            exact hc
      · have hjni : j2 ∉ i :: L := by
          simp only [List.mem_cons]
          rintro (rfl | hmem)
          · exact hji rfl
          · exact hj2 hmem
        rcases hp : st.positions[i]? with _ | pos
        · simp only [hp] at hq2
          exact hdone j2 hjni q2 hq2
        · simp only [hp] at hq2
          split_ifs at hq2 with ho
          · rw [executeSell_of_open s i finalPrice now pos (by rw [hsi, hp]) ho] at hq2
            dsimp only at hq2
            rw [List.getElem?_set_ne (fun he => hji he.symm)] at hq2
            exact hdone j2 hjni q2 hq2
          · exact hdone j2 hjni q2 hq2

lemma closeAllPositions_all_closed (now : ℤ) (st : BTState) (finalPrice : ℚ)
    (hst : ∀ p ∈ st.positions,
      p.status = PositionStatus.OPEN ∨ p.status = PositionStatus.CLOSED) :
    ∀ p ∈ (closeAllPositions now st finalPrice).positions,
      p.status = PositionStatus.CLOSED := by
  intro p hp
  unfold closeAllPositions at hp
  rcases List.mem_iff_getElem?.1 hp with ⟨j, hj⟩
  refine closeAll_sweep now st finalPrice hst (List.range st.positions.length)
    (List.nodup_range _) st (fun i _ => rfl) ?_ j p hj
  intro j2 hj2 q hq
  have hle : st.positions.length ≤ j2 := by
    simp only [List.mem_range] at hj2
    omega
  rw [List.getElem?_eq_none hle] at hq
  cases hq

/-- C6: after `runBacktest` on non-empty data, every position in the ledger
is CLOSED (the final `closeAllPositions` sweep force-closes the OPEN ones),
and the trade list holds exactly one SELL trade per position: positions are
only created by `executeBuy` (OPEN), and only `executeSell` closes one,
appending exactly one SELL trade per transition. -/
theorem runBacktest_all_positions_closed
    (cfg : BTConfig) (sig : List PriceData → Option TradingSignal) (now : ℤ)
    (initialBalance : ℚ) (historicalData : List PriceData) (st : BTState)
    (hne : historicalData ≠ [])
    (h : runBacktest cfg sig now initialBalance historicalData = some st) :
    (∀ p ∈ st.positions, p.status = PositionStatus.CLOSED) ∧
    sellCount st.trades = st.positions.length := by
  simp only [runBacktest] at h
  rw [if_neg (by simpa [List.length_eq_zero] using hne)] at h
  injection h with h
  have hfold : LedgerInv ((historicalData.foldl (btStep cfg sig now)
      ([], ⟨initialBalance, [], [], initialBalance, 0, 0, 0⟩)).2) :=
    foldl_preserve (fun acc : List PriceData × BTState => LedgerInv acc.2)
      (btStep cfg sig now) historicalData
      ([], ⟨initialBalance, [], [], initialBalance, 0, 0, 0⟩)
      ⟨by simp, by simp [sellCount, closedCount]⟩
      (fun a b _ ha => btStep_ledger cfg sig now a b ha)
  subst h
  have hclosed := closeAllPositions_all_closed now _
    ((historicalData.getLastD default).close) hfold.1
  refine ⟨hclosed, ?_⟩
  have hinv := (closeAllPositions_ledger now _
    ((historicalData.getLastD default).close) hfold).2
  rw [hinv]
  unfold closedCount
  exact List.countP_eq_length.2 (fun p hp => by simp [hclosed p hp])

/-- Concrete evaluation of the one-bar witness run: the strategy buys 500
units at price 1 and the final sweep closes the position at the last close. -/
lemma runBacktest_oneBar_eval :
    runBacktest cfgEx sigBuyF 0 10000 [barOne] = some finalStEx := by
  have h1 : updatePositionValues st0Ex 1 = st0Ex := by
    simp [updatePositionValues, st0Ex]
  have h2 : checkPositionExits 0 st0Ex barOne = st0Ex := by
    simp [checkPositionExits, st0Ex]
  have h3 : calculatePositionSize 1000 0.02 0.05
      ⟨SignalType.BUY, 0.5, 1, 0⟩ 10000 1 = 500 := by
    norm_num [calculatePositionSize, min_def]
  have h4 : validateTrade rpEx ⟨0, 0⟩ ⟨SignalType.BUY, 0.5, 1, 0⟩ 500 10000 [] =
      (⟨true, none⟩, 10000) := by
    norm_num [validateTrade, isDailyLossLimitExceeded, isDrawdownLimitExceeded,
      calculateTotalExposure, rpEx, min_def]
  have h5 : processSignal cfgEx ⟨SignalType.BUY, 0.5, 1, 0⟩ barOne st0Ex = stBuyEx := by
    simp only [processSignal, cfgEx, st0Ex, List.filter_nil]
    rw [h3, h4]
    norm_num [executeBuy, calculateStopLoss, calculateTakeProfit, stBuyEx,
      posOpenEx, barOne]
  have h6 : updateBalanceTracking stBuyEx = stTrackedEx := by
    norm_num [updateBalanceTracking, stBuyEx, stTrackedEx, posOpenEx]
  have h7 : btStep cfgEx sigBuyF 0 ([], st0Ex) barOne = ([barOne], stTrackedEx) := by
    simp only [btStep, List.nil_append]
    rw [if_neg (by norm_num [cfgEx]), if_neg (by norm_num [cfgEx])]
    simp only [sigBuyF]
    rw [if_pos (by decide :
      (⟨SignalType.BUY, 0.5, 1, 0⟩ : TradingSignal).type ≠ SignalType.HOLD)]
    rw [show (barOne.close : ℚ) = 1 from rfl, h1, h2, h5, h6]
  have h8 : closeAllPositions 0 stTrackedEx 1 = finalStEx := by
    simp only [closeAllPositions, stTrackedEx]
    norm_num [List.range_succ, executeSell, closePosition, posOpenEx, finalStEx]
  simp only [runBacktest]
  rw [if_neg (by simp)]
  rw [show ([barOne].foldl (btStep cfgEx sigBuyF 0)
      ([], ⟨10000, [], [], 10000, 0, 0, 0⟩)) =
    btStep cfgEx sigBuyF 0 ([], st0Ex) barOne from by
      rw [List.foldl_cons, List.foldl_nil]; rfl]
  rw [h7]
  rw [show (([barOne] : List PriceData).getLastD default).close = (1 : ℚ) from rfl]
  rw [h8]

/-- C6 witness: a one-bar backtest that opens one position and force-closes
it ends with every position CLOSED and exactly one SELL trade. -/
theorem runBacktest_all_positions_closed_witness :
    runBacktest cfgEx sigBuyF 0 10000 [barOne] = some finalStEx ∧
    (∀ p ∈ finalStEx.positions, p.status = PositionStatus.CLOSED) ∧
    sellCount finalStEx.trades = finalStEx.positions.length := by
  have hthm := runBacktest_all_positions_closed cfgEx sigBuyF 0 10000 [barOne]
    finalStEx (by simp) runBacktest_oneBar_eval
  exact ⟨runBacktest_oneBar_eval, hthm.1, hthm.2⟩

lemma executeBuy_sizes (st : BTState) (size price : ℚ) (ts : ℤ)
    (h : SizesNonneg st) (hsize : 0 ≤ size) :
    SizesNonneg (executeBuy st size price ts) := by
  simp only [executeBuy]
  split_ifs with hb
  · exact h
  refine ⟨?_, ?_⟩
  · show 0 ≤ st.balance - _
    have := not_lt.1 hb
    linarith
  · intro p hp
    simp only [List.mem_append, List.mem_singleton] at hp
    rcases hp with hp | rfl
    · exact h.2 p hp
    · exact hsize

lemma executeSell_balance_mono (st : BTState) (i : ℕ) (price : ℚ) (ts : ℤ)
    (hsz : ∀ p ∈ st.positions, 0 ≤ p.size) (hp : 0 ≤ price) :
    st.balance ≤ (executeSell st i price ts).balance := by
  rcases hq : st.positions[i]? with _ | pos
  · rw [executeSell_noop st i price ts (fun q hqq => by rw [hq] at hqq; cases hqq)]
  · by_cases ho : pos.status = PositionStatus.OPEN
    · rw [executeSell_of_open st i price ts pos hq ho]
      have hps : 0 ≤ pos.size := hsz pos (List.mem_iff_getElem?.2 ⟨i, hq⟩)
      have hX : 0 ≤ pos.size * price := mul_nonneg hps hp
      show st.balance ≤ st.balance + _
      linarith
    · rw [executeSell_noop st i price ts
        (fun q hqq => by rw [hq] at hqq; injection hqq with hqq; exact hqq ▸ ho)]

lemma executeSell_sizes (st : BTState) (i : ℕ) (price : ℚ) (ts : ℤ)
    (h : SizesNonneg st) (hp : 0 ≤ price) :
    SizesNonneg (executeSell st i price ts) := by
  refine ⟨le_trans h.1 (executeSell_balance_mono st i price ts h.2 hp), ?_⟩
  rcases hq : st.positions[i]? with _ | pos
  · rw [executeSell_noop st i price ts (fun q hqq => by rw [hq] at hqq; cases hqq)]
    exact h.2
  · by_cases ho : pos.status = PositionStatus.OPEN
    · rw [executeSell_of_open st i price ts pos hq ho]
      intro q hqm
      rcases List.mem_or_eq_of_mem_set hqm with hm | rfl
      · exact h.2 q hm
      · rw [closePosition_size]
        exact h.2 pos (List.mem_iff_getElem?.2 ⟨i, hq⟩)
    · rw [executeSell_noop st i price ts
        (fun q hqq => by rw [hq] at hqq; injection hqq with hqq; exact hqq ▸ ho)]
      exact h.2

lemma calculatePositionSize_nonneg (m r slp : ℚ) (signal : TradingSignal)
    (bal price : ℚ) (hm : 0 ≤ m) (hr : 0 ≤ r) (hslp : 0 ≤ slp)
    (hs : 0 ≤ signal.strength) (hb : 0 ≤ bal) (hp : 0 ≤ price) :
    0 ≤ calculatePositionSize m r slp signal bal price := by
  simp only [calculatePositionSize]
  refine le_min (le_min ?_ ?_) ?_
  · exact mul_nonneg hm hs
  · exact div_nonneg (mul_nonneg hb hr) (mul_nonneg hp hslp)
  · exact mul_nonneg (div_nonneg hb hp) (by norm_num)

lemma validateTrade_adjustedSize_nonneg (params : RiskParams) (st : RiskState)
    (signal : TradingSignal) (proposedSize currentBalance a : ℚ)
    (openPositions : List Position)
    (hp : 0 < signal.price) (hb : 0 ≤ currentBalance) (hps : 0 ≤ proposedSize)
    (hmax : 0 ≤ params.maxPositionSize) (hr : 0 ≤ params.riskPerTrade)
    (ha : (validateTrade params st signal proposedSize currentBalance
      openPositions).1.adjustedSize = some a) : 0 ≤ a := by
  simp only [validateTrade] at ha
  split_ifs at ha with c1 c2 c3 c4 c5 c6 c7 c8 <;> try simp_all
  · rw [← ha]
    exact le_of_lt (div_pos (by linarith) hp)
  · rw [← ha]
    refine le_min (le_min hps ?_) hmax
    exact div_nonneg (mul_nonneg hb hr) (mul_nonneg hp.le (by norm_num))

lemma getD_nonneg {o : Option ℚ} {d : ℚ} (hd : 0 ≤ d)
    (ho : ∀ a, o = some a → 0 ≤ a) : 0 ≤ o.getD d := by
  cases o with
  | none => simpa using hd
  | some a => simpa using ho a rfl

lemma processSignal_sizes (cfg : BTConfig) (signal : TradingSignal)
    (currentData : PriceData) (st : BTState)
    (h : SizesNonneg st) (hp : 0 < signal.price) (hs : 0 ≤ signal.strength)
    (hm : 0 ≤ cfg.cfgMaxPositionSize) (hr : 0 ≤ cfg.cfgRiskPerTrade)
    (hslp : 0 ≤ cfg.stopLossPercent) (hmax : 0 ≤ cfg.riskParams.maxPositionSize)
    (hrp : 0 ≤ cfg.riskParams.riskPerTrade) :
    SizesNonneg (processSignal cfg signal currentData st) := by
  have hpos : 0 ≤ calculatePositionSize cfg.cfgMaxPositionSize cfg.cfgRiskPerTrade
      cfg.stopLossPercent signal st.balance signal.price :=
    calculatePositionSize_nonneg _ _ _ _ _ _ hm hr hslp hs h.1 hp.le
  simp only [processSignal]
  split_ifs with ha hbuy hsell
  · exact h
  · refine executeBuy_sizes _ _ _ _ h (getD_nonneg hpos ?_)
    intro a hadj
    exact validateTrade_adjustedSize_nonneg _ _ _ _ _ _ _ hp h.1 hpos hmax hrp hadj
  · split
    · exact executeSell_sizes _ _ _ _ h hp.le
    · exact h
  · exact h

lemma updatePositionValues_sizes (st : BTState) (price : ℚ)
    (h : SizesNonneg st) : SizesNonneg (updatePositionValues st price) := by
  refine ⟨h.1, ?_⟩
  intro p hp
  simp only [updatePositionValues, List.mem_map] at hp
  rcases hp with ⟨q, hq, rfl⟩
  rw [refreshPosition_size]
  exact h.2 q hq

lemma updateBalanceTracking_sizes (st : BTState) (h : SizesNonneg st) :
    SizesNonneg (updateBalanceTracking st) := h

lemma checkPositionExits_sizes (now : ℤ) (st : BTState) (currentData : PriceData)
    (h : SizesNonneg st) (hc : 0 ≤ currentData.close) :
    SizesNonneg (checkPositionExits now st currentData) := by
  unfold checkPositionExits
  refine foldl_preserve _ _ _ _ h ?_
  intro s i _ hs
  dsimp only
  split
  · split_ifs with hcc
    · exact executeSell_sizes _ _ _ _ hs hc
    · exact hs
  · exact hs

lemma closeAllPositions_sizes (now : ℤ) (st : BTState) (finalPrice : ℚ)
    (h : SizesNonneg st) (hc : 0 ≤ finalPrice) :
    SizesNonneg (closeAllPositions now st finalPrice) := by
  unfold closeAllPositions
  refine foldl_preserve _ _ _ _ h ?_
  intro s i _ hs
  dsimp only
  split
  · split_ifs with hcc
    · exact executeSell_sizes _ _ _ _ hs hc
    · exact hs
  · exact hs

lemma btStep_sizes (cfg : BTConfig) (sig : List PriceData → Option TradingSignal)
    (now : ℤ) (acc : List PriceData × BTState) (currentData : PriceData)
    (h : SizesNonneg acc.2) (hc : 0 ≤ currentData.close)
    (hsig : ∀ w s, sig w = some s → 0 < s.price ∧ 0 ≤ s.strength)
    (hm : 0 ≤ cfg.cfgMaxPositionSize) (hr : 0 ≤ cfg.cfgRiskPerTrade)
    (hslp : 0 ≤ cfg.stopLossPercent) (hmax : 0 ≤ cfg.riskParams.maxPositionSize)
    (hrp : 0 ≤ cfg.riskParams.riskPerTrade) :
    SizesNonneg (btStep cfg sig now acc currentData).2 := by
  simp only [btStep]
  split_ifs with htrim hskip hskip2
  · exact h
  · have hbase : SizesNonneg (checkPositionExits now
        (updatePositionValues acc.2 currentData.close) currentData) :=
      checkPositionExits_sizes _ _ _ (updatePositionValues_sizes _ _ h) hc
    dsimp only
    refine updateBalanceTracking_sizes _ ?_
    split
    · rename_i s heq
      split_ifs with hh
      · exact processSignal_sizes _ _ _ _ hbase (hsig _ _ heq).1 (hsig _ _ heq).2
          hm hr hslp hmax hrp
      · exact hbase
    · exact hbase
  · exact h
  · have hbase : SizesNonneg (checkPositionExits now
        (updatePositionValues acc.2 currentData.close) currentData) :=
      checkPositionExits_sizes _ _ _ (updatePositionValues_sizes _ _ h) hc
    dsimp only
    refine updateBalanceTracking_sizes _ ?_
    split
    · rename_i s heq
      split_ifs with hh
      · exact processSignal_sizes _ _ _ _ hbase (hsig _ _ heq).1 (hsig _ _ heq).2
          hm hr hslp hmax hrp
      · exact hbase
    · exact hbase

/-- C10: the simulated cash balance never becomes negative.  (i) `executeBuy`
is an atomic no-op when the balance cannot cover cost plus fee; (ii)
`executeSell` only ever adds nonnegative net proceeds to the balance (sizes
and prices being nonnegative); (iii) every prefix of the backtest loop and
(iv) the final state after the forced close keep the balance nonnegative,
given nonnegative data prices, config parameters and signals with positive
price and nonnegative strength. -/
theorem backtester_balance_never_negative
    (cfg : BTConfig) (sig : List PriceData → Option TradingSignal) (now : ℤ)
    (initialBalance : ℚ) (historicalData : List PriceData)
    (hb : 0 ≤ initialBalance)
    (hdata : ∀ b ∈ historicalData, 0 ≤ b.close)
    (hsig : ∀ w s, sig w = some s → 0 < s.price ∧ 0 ≤ s.strength)
    (hm : 0 ≤ cfg.cfgMaxPositionSize) (hr : 0 ≤ cfg.cfgRiskPerTrade)
    (hslp : 0 ≤ cfg.stopLossPercent) (hmax : 0 ≤ cfg.riskParams.maxPositionSize)
    (hrp : 0 ≤ cfg.riskParams.riskPerTrade) :
    (∀ (st : BTState) (size price : ℚ) (ts : ℤ),
      st.balance < size * price + size * price * 0.0025 →
      executeBuy st size price ts = st) ∧
    (∀ (st : BTState) (i : ℕ) (price : ℚ) (ts : ℤ),
      (∀ p ∈ st.positions, 0 ≤ p.size) → 0 ≤ price →
      st.balance ≤ (executeSell st i price ts).balance) ∧
    (∀ n : ℕ, 0 ≤ ((historicalData.take n).foldl (btStep cfg sig now)
      ([], ⟨initialBalance, [], [], initialBalance, 0, 0, 0⟩)).2.balance) ∧
    (∀ st : BTState,
      runBacktest cfg sig now initialBalance historicalData = some st →
      0 ≤ st.balance) := by
  have hfold : ∀ l : List PriceData, (∀ b ∈ l, 0 ≤ b.close) →
      SizesNonneg ((l.foldl (btStep cfg sig now)
        ([], ⟨initialBalance, [], [], initialBalance, 0, 0, 0⟩)).2) := by
    intro l hl
    exact foldl_preserve (fun acc : List PriceData × BTState => SizesNonneg acc.2)
      (btStep cfg sig now) l ([], ⟨initialBalance, [], [], initialBalance, 0, 0, 0⟩)
      ⟨hb, by simp⟩
      (fun a b hbm ha => btStep_sizes cfg sig now a b ha (hl b hbm) hsig
        hm hr hslp hmax hrp)
  refine ⟨?_, ?_, ?_, ?_⟩
  · intro st size price ts h
    simp only [executeBuy]
    rw [if_pos h]
  · intro st i price ts hsz hp
    exact executeSell_balance_mono st i price ts hsz hp
  · intro n
    exact (hfold (historicalData.take n)
      (fun b hbm => hdata b (List.mem_of_mem_take hbm))).1
  · intro st hst
    simp only [runBacktest] at hst
    split_ifs at hst with hlen
    injection hst with hst
    subst hst
    have hne : historicalData ≠ [] := by
      intro hcon
      rw [hcon] at hlen
      exact hlen rfl
    exact (closeAllPositions_sizes now _ _ (hfold historicalData hdata)
      (hdata _ (getLastD_mem historicalData default hne))).1

/-- C10 witness: the one-bar witness run ends with balance 9997.5 ≥ 0. -/
theorem backtester_balance_never_negative_witness :
    runBacktest cfgEx sigBuyF 0 10000 [barOne] = some finalStEx ∧
    0 ≤ finalStEx.balance :=
  ⟨runBacktest_oneBar_eval,
   (backtester_balance_never_negative cfgEx sigBuyF 0 10000 [barOne]
      (by norm_num)
      (by intro b hbm; simp only [List.mem_singleton] at hbm; subst hbm;
          norm_num [barOne])
      (by intro w s h; simp only [sigBuyF] at h; injection h with h; subst h;
          norm_num)
      (by norm_num [cfgEx]) (by norm_num [cfgEx]) (by norm_num [cfgEx])
      (by norm_num [cfgEx, rpEx]) (by norm_num [cfgEx, rpEx])).2.2.2
     finalStEx runBacktest_oneBar_eval⟩

lemma list_sum_const (c : ℚ) : ∀ l : List ℚ, (∀ x ∈ l, x = c) →
    l.sum = l.length * c := by
  intro l
  induction l with
  | nil => intro _; simp
  | cons x l ih =>
    intro h
    rw [List.sum_cons, ih (fun y hy => h y (List.mem_cons_of_mem _ hy)),
      h x (List.mem_cons_self _ _), List.length_cons]
    push_cast
    ring

/-- At z-score 0 (the flat-window case) the classification stage yields a
zero-strength BUY (when entryThreshold < 0), the neutral HOLD of strength
0.1, or HOLD of strength 0. -/
lemma signalBase_zero (params : StrategyParams) (rsi : Option ℚ)
    (hm : 0 < params.stdDevMultiplier) :
    signalBase params 0 rsi = (SignalType.BUY, 0) ∨
    signalBase params 0 rsi = (SignalType.HOLD, 0.1) ∨
    signalBase params 0 rsi = (SignalType.HOLD, 0) := by
  simp only [signalBase, abs_zero]
  split_ifs with c1 c2 c3 c4 c5
  · exfalso; linarith
  · exfalso; linarith
  · left
    norm_num
  · exfalso
    exact c3 ⟨by linarith [c4.1], by linarith⟩
  · right; left; rfl
  · right; right; rfl

/-- On a flat window (all bands collapsed to the price, z-score 0) no
signal survives the 0.3 strength floor, whatever the volume and the RSI/EMA
oracles return. -/
lemma generateSignal_flat (params : StrategyParams) (c vol : ℚ) (now : ℤ)
    (rsi ema : Option ℚ) (hm : 0 < params.stdDevMultiplier) :
    generateSignal params c 0 ⟨c, c, c, 0, rsi, ema⟩ vol now = none := by
  simp only [generateSignal]
  split_ifs with hv hstr
  · rfl
  · rfl
  exfalso
  apply hstr
  rcases signalBase_zero params rsi hm with hb | hb | hb <;> rw [hb] <;>
    · show applyFilters c ⟨c, c, c, 0, rsi, ema⟩ _ _ < 0.3
      cases ema <;>
        · simp only [applyFilters]
          split_ifs <;> simp_all <;> norm_num [min_def] <;> linarith

/-- On any all-flat price window, `analyze` returns none: the z-score is 0
in exact arithmetic (`0/0 = 0` in ℚ; the Decimal.js NaN comparisons in the
source likewise all fail) and no branch reaches the 0.3 strength floor. -/
lemma analyze_flat (sqrtQ : ℚ → ℚ) (rsiF emaF : List ℚ → Option ℚ)
    (params : StrategyParams) (now : ℤ) (c : ℚ)
    (hsq : sqrtQ 0 = 0) (hm : 0 < params.stdDevMultiplier)
    (hp : 0 < params.maPeriod) (priceHistory : List PriceData)
    (hflat : ∀ b ∈ priceHistory, b.close = c) :
    analyze sqrtQ rsiF emaF params now priceHistory = none := by
  simp only [analyze]
  split_ifs with hl
  · rfl
  push_neg at hl
  have hcl : ∀ x ∈ priceHistory.map (fun p => p.close), x = c := by
    intro x hx
    rcases List.mem_map.1 hx with ⟨b, hb, rfl⟩
    exact hflat b hb
  set closes := priceHistory.map (fun p => p.close) with hcloses
  have hlen : params.maPeriod ≤ closes.length := by
    simpa [hcloses] using hl
  have hlenpos : 0 < closes.length := lt_of_lt_of_le hp hlen
  have hwin_mem : ∀ x ∈ sliceLast params.maPeriod closes, x = c := by
    intro x hx
    apply hcl
    unfold sliceLast at hx
    split_ifs at hx
    · exact hx
    · exact List.mem_of_mem_drop hx
  have hwin_len : (sliceLast params.maPeriod closes).length = params.maPeriod := by
    unfold sliceLast
    rw [if_neg (by omega)]
    rw [List.length_drop]
    omega
  have hcast : ((sliceLast params.maPeriod closes).length : ℚ) ≠ 0 := by
    rw [hwin_len]
    exact_mod_cast hp.ne'
  have hmean : (sliceLast params.maPeriod closes).sum /
      ((sliceLast params.maPeriod closes).length : ℚ) = c := by
    rw [list_sum_const c _ hwin_mem]
    field_simp
  have hvar : ((sliceLast params.maPeriod closes).map (fun val =>
      (val - (sliceLast params.maPeriod closes).sum /
        ((sliceLast params.maPeriod closes).length : ℚ)) *
      (val - (sliceLast params.maPeriod closes).sum /
        ((sliceLast params.maPeriod closes).length : ℚ)))).sum /
      ((sliceLast params.maPeriod closes).length : ℚ) = 0 := by
    rw [list_sum_const 0]
    · simp
    · intro x hx
      rcases List.mem_map.1 hx with ⟨v, hv, rfl⟩
      rw [hwin_mem v hv, hmean]
      ring
  have hsma : smaLast params.maPeriod closes = some c := by
    simp only [smaLast]
    rw [if_neg (by push_neg; exact ⟨by omega, by omega⟩)]
    rw [hmean]
  have hci : calculateIndicators sqrtQ rsiF emaF params closes =
      some ⟨c, c, c, 0,
        if closes.length ≥ 14 then rsiF closes else none,
        if closes.length ≥ 20 then emaF closes else none⟩ := by
    simp only [calculateIndicators, hsma]
    rw [hvar, hsq]
    norm_num
  rw [hci]
  have hne : closes ≠ [] := List.length_pos.1 hlenpos
  have hcp : closes.getLastD 0 = c := hcl _ (getLastD_mem closes 0 hne)
  dsimp only
  rw [hcp, sub_self, zero_div]
  exact generateSignal_flat params c _ now _ _ hm

/-- One backtest step over flat data with a signal function that is silent
on flat windows keeps the window flat and the ledger empty. -/
lemma btStep_flat (cfg : BTConfig) (sig : List PriceData → Option TradingSignal)
    (now : ℤ) (c : ℚ)
    (hsig0 : ∀ w : List PriceData, (∀ x ∈ w, x.close = c) → sig w = none)
    (acc : List PriceData × BTState) (bar : PriceData)
    (hw : ∀ x ∈ acc.1, x.close = c) (hbar : bar.close = c)
    (hpos : acc.2.positions = []) (htr : acc.2.trades = []) :
    (∀ x ∈ (btStep cfg sig now acc bar).1, x.close = c) ∧
    (btStep cfg sig now acc bar).2.positions = [] ∧
    (btStep cfg sig now acc bar).2.trades = [] := by
  have happ : ∀ x ∈ acc.1 ++ [bar], x.close = c := by
    intro x hx
    rcases List.mem_append.1 hx with hx | hx
    · exact hw x hx
    · simp only [List.mem_singleton] at hx
      subst hx
      exact hbar
  have hwin : ∀ w : List PriceData,
      (w = if (acc.1 ++ [bar]).length > cfg.strategyPeriod * 2 then
        sliceLast (cfg.strategyPeriod * 2) (acc.1 ++ [bar]) else acc.1 ++ [bar]) →
      ∀ x ∈ w, x.close = c := by
    intro w hweq x hx
    rw [hweq] at hx
    split_ifs at hx
    · apply happ
      unfold sliceLast at hx
      split_ifs at hx
      · exact hx
      · exact List.mem_of_mem_drop hx
    · exact happ x hx
  have h1p : (updatePositionValues acc.2 bar.close).positions = [] := by
    simp [updatePositionValues, hpos]
  have h1t : (updatePositionValues acc.2 bar.close).trades = acc.2.trades := rfl
  have h2 : checkPositionExits now (updatePositionValues acc.2 bar.close) bar =
      updatePositionValues acc.2 bar.close := by
    unfold checkPositionExits
    rw [h1p]
    simp
  simp only [btStep]
  split_ifs with htrim hskip hskip2
  · exact ⟨fun x hx => hwin _ (by rw [if_pos htrim]) x hx, hpos, htr⟩
  · have hflatw := hwin _ (by rw [if_pos htrim])
    rw [hsig0 _ hflatw]
    refine ⟨hflatw, ?_, ?_⟩
    · show (updateBalanceTracking (checkPositionExits now
        (updatePositionValues acc.2 bar.close) bar)).positions = []
      rw [h2]
      exact h1p
    · show (updateBalanceTracking (checkPositionExits now
        (updatePositionValues acc.2 bar.close) bar)).trades = []
      rw [h2]
      exact htr
  · exact ⟨fun x hx => hwin _ (by rw [if_neg htrim]) x hx, hpos, htr⟩
  · have hflatw := hwin _ (by rw [if_neg htrim])
    rw [hsig0 _ hflatw]
    refine ⟨hflatw, ?_, ?_⟩
    · show (updateBalanceTracking (checkPositionExits now
        (updatePositionValues acc.2 bar.close) bar)).positions = []
      rw [h2]
      exact h1p
    · show (updateBalanceTracking (checkPositionExits now
        (updatePositionValues acc.2 bar.close) bar)).trades = []
      rw [h2]
      exact htr

/-- C4, proved of the intended exact-decimal semantics: on an all-flat
price window (every close equal, hence population standard deviation
exactly 0) `analyze` returns none — no division-by-zero blowup, since the
0/0 z-score takes the 0-strength path — and consequently a backtest over an
all-flat series executes zero trades.  The shipped code computes the window
statistics in binary floating point (`toNumber()` conversions), where a
flat window of closes 0.1 with maPeriod 10 gets variance ≈ 1.9e-34 instead
of 0 and z ≈ 0.72, so `analyze` emits a SELL signal of strength ≈ 0.36
there: the program violates the claim, a float slip against the
specification's rule that price arithmetic never uses binary floating
point.  This theorem certifies that the claimed behaviour holds exactly on
the specified arithmetic, isolating the bug to the float conversion. -/
theorem analyze_flat_none_and_backtest_no_trades
    (sqrtQ : ℚ → ℚ) (rsiF emaF : List ℚ → Option ℚ) (params : StrategyParams)
    (now : ℤ) (c : ℚ)
    (hsq : sqrtQ 0 = 0) (hm : 0 < params.stdDevMultiplier)
    (hp : 0 < params.maPeriod) :
    (∀ priceHistory : List PriceData, (∀ b ∈ priceHistory, b.close = c) →
      analyze sqrtQ rsiF emaF params now priceHistory = none) ∧
    (∀ (cfg : BTConfig) (initialBalance : ℚ) (historicalData : List PriceData)
      (st : BTState), (∀ b ∈ historicalData, b.close = c) →
      runBacktest cfg (analyze sqrtQ rsiF emaF params now) now initialBalance
        historicalData = some st →
      st.trades = []) := by
  have hnull : ∀ priceHistory : List PriceData,
      (∀ b ∈ priceHistory, b.close = c) →
      analyze sqrtQ rsiF emaF params now priceHistory = none :=
    fun ph hf => analyze_flat sqrtQ rsiF emaF params now c hsq hm hp ph hf
  refine ⟨hnull, ?_⟩
  intro cfg ib data st hflat hrun
  simp only [runBacktest] at hrun
  split_ifs at hrun with hlen
  injection hrun with hrun
  subst hrun
  have hinv := foldl_preserve (fun acc : List PriceData × BTState =>
      (∀ x ∈ acc.1, x.close = c) ∧ acc.2.positions = [] ∧ acc.2.trades = [])
    (btStep cfg (analyze sqrtQ rsiF emaF params now) now) data
    ([], ⟨ib, [], [], ib, 0, 0, 0⟩)
    ⟨by simp, rfl, rfl⟩
    (fun a b hbm ha =>
      btStep_flat cfg _ now c hnull a b ha.1 (hflat b hbm) ha.2.1 ha.2.2)
  have hclose : closeAllPositions now
      ((data.foldl (btStep cfg (analyze sqrtQ rsiF emaF params now) now)
        ([], ⟨ib, [], [], ib, 0, 0, 0⟩)).2) ((data.getLastD default).close) =
      (data.foldl (btStep cfg (analyze sqrtQ rsiF emaF params now) now)
        ([], ⟨ib, [], [], ib, 0, 0, 0⟩)).2 := by
    unfold closeAllPositions
    rw [hinv.2.1]
    simp
  rw [hclose]
  exact hinv.2.2

/-- C4 witness: on a one-bar flat window the strategy emits no signal. -/
theorem analyze_flat_none_and_backtest_no_trades_witness :
    analyze (fun x => x) (fun _ => none) (fun _ => none) spFlat 0 [barFive] = none :=
  (analyze_flat_none_and_backtest_no_trades (fun x => x) (fun _ => none)
    (fun _ => none) spFlat 0 5 rfl (by norm_num [spFlat]) (by norm_num [spFlat])).1
    [barFive]
    (by intro b hb; simp only [List.mem_singleton] at hb; subst hb; rfl)
